import Mathlib

/-!
# aws-lambda-s3-upload-unzip: archive variant and tree-walk variant

A shallow embedding of `s3_unzipper_upload/main.go` and `sftp_s3_upload/main.go`.

* A Go `string` is modelled as the list of its characters. The programs only
  concatenate strings and search them for non-empty substrings; on valid UTF-8
  the byte-wise search of the Go runtime and the character-wise search below
  find the same occurrences.
* `time.Now().Format("2006-01-02")` is an input: the date text the clock gives
  at the moment of the call.
* Results of the remote calls (`GetObject`, `zip.NewReader`, `Open`, `Upload`,
  the SFTP walk) are inputs as well.
* `log.Fatal*` ends the process: in the models the run is marked as exited
  and takes no further step.
-/

/-- A Go string, as the sequence of its characters. -/
abbrev GoString := List Char

/-! ## The Go standard library functions the programs call -/

/-- `strings.Index(s, substr)`: the position of the first occurrence of
`substr` in `s`; `none` stands for Go's `-1`. -/
def Index : GoString → GoString → Option Nat
  | [], substr => if substr.length = 0 then some 0 else none
  | c :: cs, substr =>
    if substr.isPrefixOf (c :: cs) then some 0
    else (Index cs substr).map (· + 1)

/-- The loop of `strings.Count` for a non-empty `substr`:
`i := Index(s, substr); if i == -1 { return n }; n++; s = s[i+len(substr):]`.
Every round shortens `s`, so `len(s) + 1` rounds of fuel always suffice. -/
def countLoop (substr : GoString) : Nat → GoString → Nat
  | 0, _ => 0
  | fuel + 1, s =>
    match Index s substr with
    | none => 0
    | some i => countLoop substr fuel (s.drop (i + substr.length)) + 1

/-- `strings.Count(s, substr)`: the number of non-overlapping occurrences;
for the empty `substr` it is the number of characters plus one. -/
def Count (s substr : GoString) : Nat :=
  if substr.length = 0 then s.length + 1
  else countLoop substr (s.length + 1) s

/-- The replacement loop of `strings.Replace`, on the rest `s[start:]` of the
input: `k` replacements are still to be made, `first` says whether this is
round `i = 0`. -/
def replaceLoop (old new : GoString) : Nat → Bool → GoString → GoString
  | 0, _, rest => rest
  | k + 1, first, rest =>
    if old.length = 0 then
      let j := if first then 0 else min 1 rest.length
      rest.take j ++ new ++ replaceLoop old new k false (rest.drop j)
    else
      match Index rest old with
      | none => rest -- not reached: at most `Count s old` rounds are run
      | some j =>
        rest.take j ++ new ++ replaceLoop old new k false (rest.drop (j + old.length))

/-- `strings.Replace(s, old, new, n)`: the first `n` non-overlapping
occurrences of `old` replaced by `new`, all of them when `n < 0`. -/
def Replace (s old new : GoString) (n : Int) : GoString :=
  if old = new ∨ n = 0 then s
  else
    let m := Count s old
    if m = 0 then s
    else
      let n' : Nat := if n < 0 ∨ (m : Int) < n then m else n.toNat
      replaceLoop old new n' true s

namespace S3Unzipper

/-! ## `s3_unzipper_upload/main.go` -/

/-- `fmt.Sprintf("new-bucket/%s/path/", now)`, the text built on lines 30 and
54 from the date `now` the clock gives. -/
def sourcePath (now : GoString) : GoString :=
  "new-bucket/".toList ++ now ++ "/path/".toList

/-- Line 54 of `uploadUnzippedFile`:
`strings.Replace(*obj.Key, fmt.Sprintf("new-bucket/%s/path/", now), "", -1)`. -/
def unzippedFolderName54 (now key : GoString) : GoString :=
  Replace key (sourcePath now) [] (-1)

/-- Line 55 of `uploadUnzippedFile`:
`strings.Replace(unzippedFolderName, ".zip", "", -1)`. -/
def unzippedFolderName55 (unzippedFolderName : GoString) : GoString :=
  Replace unzippedFolderName ".zip".toList [] (-1)

/-- The value of `unzippedFolderName` after lines 54 and 55. -/
def unzippedFolderName (now key : GoString) : GoString :=
  unzippedFolderName55 (unzippedFolderName54 now key)

/-- The `Key` of the `PutObjectInput` on line 62,
`fmt.Sprintf("%s/%s/%s/%s", unzippedFolderLocation, unzipDate, unzippedFolderName, zipFile.Name)`.
`now54` and `now57` are what `time.Now().Format("2006-01-02")` gives on
lines 54 and 57. -/
def destinationKey (now54 now57 key name : GoString) : GoString :=
  let unzipDate := now57
  let unzippedFolderLocation := "new-bucket/unzipped".toList
  unzippedFolderLocation ++ "/".toList ++ unzipDate ++ "/".toList
    ++ unzippedFolderName now54 key ++ "/".toList ++ name

/-- An entry of a decoded archive (`*zip.File`), together with what the two
calls made on it return. -/
structure ZipFile where
  /-- `zipFile.Name`. -/
  Name : GoString
  /-- `zipFile.Open()` returns an error (line 48). -/
  openErr : Bool
  /-- `uploader.Upload` of this entry returns an error (line 60). -/
  uploadErr : Bool
deriving DecidableEq

/-- A listed object (`types.Object`), together with what fetching and decoding
it gives: `none` when `getObject`, `ioutil.ReadAll` or `zip.NewReader` returns
an error, otherwise `zipReader.File`. -/
structure Object where
  /-- `*obj.Key`. -/
  Key : GoString
  /-- `zipReader.File`, when lines 105 to 119 succeed. -/
  File : Option (List ZipFile)
deriving DecidableEq

/-- How a call of `uploadUnzippedFile` ends. -/
inductive UploadOutcome
  /-- `log.Fatal(err)` on line 50. -/
  | fatalOpen
  /-- `log.Fatalln("Failed to upload", ...)` on line 66, after `Upload` was
  called with this key. -/
  | fatalUpload (key : GoString)
  /-- `log.Printf("Uploaded file: ...")` on line 69, then the deferred
  `wg.Done()`. -/
  | uploaded (key : GoString)
deriving DecidableEq

/-- The body of `uploadUnzippedFile` (lines 46 to 70). -/
def uploadUnzippedFile (zipFile : ZipFile) (obj : Object) (now54 now57 : GoString) :
    UploadOutcome :=
  if zipFile.openErr then .fatalOpen
  else
    let key := destinationKey now54 now57 obj.Key zipFile.Name
    if zipFile.uploadErr then .fatalUpload key else .uploaded key

/-- Where a per-item task (the function literal of lines 103 to 126) stands. -/
inductive ItemPc
  /-- Spawned, lines 105 to 119 not yet run. -/
  | fetch
  /-- In the loop of line 122; the entries listed are still to be visited. -/
  | range (rest : List ZipFile)
  /-- Returned: the deferred `wg.Done()` of line 104 has run. -/
  | finished
  /-- Called `log.Fatal` (line 107, 113 or 118). -/
  | fatal
deriving DecidableEq

/-- Where a per-unit task (a call of `uploadUnzippedFile`) stands. -/
inductive UnitPc
  /-- Spawned, body not yet run. -/
  | running
  /-- Returned: the deferred `wg.Done()` of line 47 has run. -/
  | finished
  /-- Called `log.Fatal` (line 50) or `log.Fatalln` (line 66). -/
  | fatal
deriving DecidableEq

/-- A spawned per-item task: `go func(obj types.Object) {...}(obj)`. -/
structure ItemTask where
  obj : Object
  pc : ItemPc
deriving DecidableEq

/-- A spawned per-unit task: `go uploadUnzippedFile(zipFile, obj, uploader)`. -/
structure UnitTask where
  zipFile : ZipFile
  obj : Object
  pc : UnitPc
deriving DecidableEq

/-- The state of one run of `HandleRequest`. -/
structure State where
  /-- The counter of the package-level `wg`. -/
  counter : Int
  /-- The pages the paginator has still to give; `none` is a page for which
  `p.NextPage` returns an error. -/
  pages : List (Option (List Object))
  /-- What is left of `page.Contents` in the loop of line 101. -/
  page : List Object
  /-- The per-item tasks spawned so far, in spawn order. -/
  items : List ItemTask
  /-- The per-unit tasks spawned so far, in spawn order. -/
  units : List UnitTask
  /-- The keys of the uploads that succeeded, in order of completion. -/
  uploads : List GoString
  /-- The process was ended by a `log.Fatal*` call. -/
  exited : Bool
  /-- The call `wg.Wait()` on line 130 has returned. -/
  returned : Bool
deriving DecidableEq

/-- The state in which `HandleRequest` enters the loop of line 94. -/
def init (pages : List (Option (List Object))) : State :=
  { counter := 0, pages := pages, page := [], items := [], units := [],
    uploads := [], exited := false, returned := false }

/-- Which goroutine moves next, and for a per-unit task the two dates the
clock gives it on lines 54 and 57. -/
inductive Action
  | main
  | item (i : Nat)
  | unit (j : Nat) (now54 now57 : GoString)
deriving DecidableEq

/-- One move of the goroutine running `HandleRequest` (lines 94 to 130).
`wg.Add(1)` and the `go` statement after it (lines 102 and 103) are one move:
the counter is read by `wg.Wait()` alone, which this goroutine calls after
the loop. `wg.Wait()` returns when the counter is zero. -/
def stepMain (s : State) : Option State :=
  match s.page, s.pages with
  | obj :: rest, _ =>
    some { s with counter := s.counter + 1, items := s.items ++ [⟨obj, .fetch⟩], page := rest }
  | [], some contents :: more => some { s with page := contents, pages := more }
  | [], none :: _ => some { s with exited := true }
  | [], [] =>
    if s.counter = 0 ∧ s.returned = false then some { s with returned := true } else none

/-- One move of the `i`-th per-item task (lines 104 to 126). `wg.Add(1)` and
the `go` statement after it (lines 123 and 124) are one move, and so are the
return from the function literal and its deferred `wg.Done()`. -/
def stepItem (s : State) (i : Nat) : Option State :=
  match s.items[i]? with
  | none => none
  | some t =>
    match t.pc with
    | .fetch =>
      match t.obj.File with
      | none => some { s with items := s.items.set i ⟨t.obj, .fatal⟩, exited := true }
      | some files => some { s with items := s.items.set i ⟨t.obj, .range files⟩ }
    | .range (zipFile :: rest) =>
      some { s with
        counter := s.counter + 1
        units := s.units ++ [⟨zipFile, t.obj, .running⟩]
        items := s.items.set i ⟨t.obj, .range rest⟩ }
    | .range [] =>
      some { s with counter := s.counter - 1, items := s.items.set i ⟨t.obj, .finished⟩ }
    | .finished => none
    | .fatal => none

/-- The move of the `j`-th per-unit task: the body of `uploadUnzippedFile` and,
unless the process was ended, its deferred `wg.Done()`. -/
def stepUnit (s : State) (j : Nat) (now54 now57 : GoString) : Option State :=
  match s.units[j]? with
  | none => none
  | some u =>
    match u.pc with
    | .running =>
      match uploadUnzippedFile u.zipFile u.obj now54 now57 with
      | .uploaded key =>
        some { s with
          counter := s.counter - 1
          units := s.units.set j ⟨u.zipFile, u.obj, .finished⟩
          uploads := s.uploads ++ [key] }
      | .fatalOpen =>
        some { s with units := s.units.set j ⟨u.zipFile, u.obj, .fatal⟩, exited := true }
      | .fatalUpload _ =>
        some { s with units := s.units.set j ⟨u.zipFile, u.obj, .fatal⟩, exited := true }
    | .finished => none
    | .fatal => none

/-- The step relation of a run, as a function: `none` when the chosen
goroutine cannot move. Once the process has exited nothing moves. -/
def step (s : State) (a : Action) : Option State :=
  if s.exited then none
  else
    match a with
    | .main => stepMain s
    | .item i => stepItem s i
    | .unit j now54 now57 => stepUnit s j now54 now57

/-- The state after a sequence of moves, when each of them is possible. -/
def run : State → List Action → Option State
  | s, [] => some s
  | s, a :: rest =>
    match step s a with
    | none => none
    | some s' => run s' rest

/-- The task has been spawned and has not finished. -/
def ItemTask.outstanding (t : ItemTask) : Bool :=
  match t.pc with
  | .finished => false
  | _ => true

/-- The task has been spawned and has not finished. -/
def UnitTask.outstanding (u : UnitTask) : Bool :=
  match u.pc with
  | .finished => false
  | _ => true

/-- The number of spawned tasks, of both levels, that have not finished. -/
def outstanding (s : State) : Nat :=
  s.items.countP ItemTask.outstanding + s.units.countP UnitTask.outstanding

/-- What holds in every state a run reaches: the counter is the number of
outstanding tasks, and once `wg.Wait()` has returned the enumeration is over
and the counter is zero. -/
structure Inv (s : State) : Prop where
  counter_eq : s.counter = (outstanding s : Int)
  returned_idle : s.returned = true → s.page = [] ∧ s.pages = [] ∧ s.counter = 0

/-! ### Concrete runs used below -/

/-- The date 2024-01-01 as the clock gives it. -/
def day1 : GoString := "2024-01-01".toList

/-- Scenario A of the specification: the object `archive.zip` whose archive
holds the entries `a.txt` and `b/c.txt`; every call on them succeeds. -/
def scenarioA : Object :=
  { Key := "new-bucket/2024-01-01/path/archive.zip".toList
    File := some
      [ { Name := "a.txt".toList, openErr := false, uploadErr := false },
        { Name := "b/c.txt".toList, openErr := false, uploadErr := false } ] }

/-- Scenario A with a failing first upload: `Upload` returns an error for
`a.txt`. -/
def scenarioFail : Object :=
  { Key := "new-bucket/2024-01-01/path/archive.zip".toList
    File := some
      [ { Name := "a.txt".toList, openErr := false, uploadErr := true },
        { Name := "b/c.txt".toList, openErr := false, uploadErr := false } ] }

/-- The date 2024-01-02 as the clock gives it. -/
def day2 : GoString := "2024-01-02".toList

/-- An archive that stores the name `a.txt` twice. -/
def scenarioTwice : Object :=
  { Key := "new-bucket/2024-01-01/path/archive.zip".toList
    File := some
      [ { Name := "a.txt".toList, openErr := false, uploadErr := false },
        { Name := "a.txt".toList, openErr := false, uploadErr := false } ] }

/-- Scenario A after the enumerator has spawned the per-item task. -/
def scenarioASpawned : State :=
  { counter := 1, pages := [], page := [], items := [⟨scenarioA, .fetch⟩], units := [],
    uploads := [], exited := false, returned := false }

/-- Scenario A after both per-unit tasks were spawned and the first of them
has finished: the per-item task and the second per-unit task are outstanding. -/
def scenarioAMid : State :=
  { counter := 2, pages := [], page := []
    items := [⟨scenarioA, .range []⟩]
    units :=
      [ ⟨{ Name := "a.txt".toList, openErr := false, uploadErr := false }, scenarioA, .finished⟩,
        ⟨{ Name := "b/c.txt".toList, openErr := false, uploadErr := false }, scenarioA, .running⟩ ]
    uploads := ["new-bucket/unzipped/2024-01-01/archive/a.txt".toList]
    exited := false, returned := false }

/-- The failing scenario before the first per-unit task runs: the per-item
task has spawned both per-unit tasks and has finished. -/
def scenarioFailBefore : State :=
  { counter := 2, pages := [], page := []
    items := [⟨scenarioFail, .finished⟩]
    units :=
      [ ⟨{ Name := "a.txt".toList, openErr := false, uploadErr := true }, scenarioFail, .running⟩,
        ⟨{ Name := "b/c.txt".toList, openErr := false, uploadErr := false }, scenarioFail, .running⟩ ]
    uploads := [], exited := false, returned := false }

/-- The failing scenario after the first per-unit task has run: the process
has exited, the second per-unit task has not run. -/
def scenarioFailAfter : State :=
  { scenarioFailBefore with
    units :=
      [ ⟨{ Name := "a.txt".toList, openErr := false, uploadErr := true }, scenarioFail, .fatal⟩,
        ⟨{ Name := "b/c.txt".toList, openErr := false, uploadErr := false }, scenarioFail, .running⟩ ]
    exited := true }

end S3Unzipper

namespace SftpUpload

/-! ## `sftp_s3_upload/main.go` -/

/-- One round of the loop `for w.Step()` of `walkPathTree`: what the walker
reports for the node it stands on. -/
structure WalkStep where
  /-- `w.Path()`. -/
  Path : GoString
  /-- `w.Stat().IsDir()`. -/
  IsDir : Bool
  /-- `w.Err() != nil`. -/
  Err : Bool
deriving DecidableEq

/-- The function `walkPathTree` (lines 124 to 140), on the rounds the walker
makes: a round with an error is passed over (`continue`), the path of a node
that is not a directory is appended. -/
def walkPathTree (walk : List WalkStep) : List GoString :=
  walk.foldl
    (fun paths w =>
      if w.Err then paths
      else if !w.IsDir then paths ++ [w.Path]
      else paths)
    []

/-- What the remote calls of `fileHandler` return. -/
structure Remote where
  /-- `client.Open(path)` returns an error. -/
  openErr : GoString → Bool
  /-- `uploader.Upload` with this `Key` returns an error. -/
  uploadErr : GoString → Bool

/-- How a call of `fileHandler` ends. -/
inductive HandlerOutcome
  /-- `log.Println("Failed opening file", ...)` and `return` (lines 145, 146). -/
  | skipped
  /-- `Upload` was called with this key and returned an error:
  `log.Fatalln` on line 158. -/
  | fatal (key : GoString)
  /-- `Upload` was called with this key and succeeded (line 160). -/
  | uploaded (key : GoString)
deriving DecidableEq

/-- The function `fileHandler` (lines 142 to 161); `importDate` is what
`time.Now().Format("2006-01-02")` gives on line 150. -/
def fileHandler (r : Remote) (importDate path : GoString) : HandlerOutcome :=
  if r.openErr path then .skipped
  else
    let key := "new-bucket/".toList ++ importDate ++ path
    if r.uploadErr key then .fatal key else .uploaded key

/-- The key `uploader.Upload` was called with, if it was called. -/
def HandlerOutcome.uploadAttempt : HandlerOutcome → Option GoString
  | .skipped => none
  | .fatal key => some key
  | .uploaded key => some key

/-- The call ended the process (`log.Fatalln`). -/
def HandlerOutcome.aborts : HandlerOutcome → Bool
  | .fatal _ => true
  | _ => false

/-- What a run has done when it stops. -/
structure RunResult where
  /-- The keys of the uploads that succeeded, in order of completion. -/
  published : List GoString
  /-- The process was ended by `log.Fatalln`. -/
  exited : Bool
deriving DecidableEq

/-- The handler goroutines, run in the order given; the `t`-th of them to run
reads the date `clock t`. A `log.Fatalln` ends the process, so the handlers
after it do not run. -/
def runHandlers (r : Remote) (clock : Nat → GoString) : Nat → List GoString → RunResult
  | _, [] => { published := [], exited := false }
  | t, path :: rest =>
    match fileHandler r (clock t) path with
    | .skipped => runHandlers r clock (t + 1) rest
    | .uploaded key =>
      let after := runHandlers r clock (t + 1) rest
      { published := key :: after.published, exited := after.exited }
    | .fatal _ => { published := [], exited := true }

/-- Lines 190 to 201 of `HandleRequest`: one goroutine per path that
`walkPathTree` returns. `order` is the order in which the goroutines get to
run: it lists positions in `paths`. -/
def HandleRequest (r : Remote) (clock : Nat → GoString) (walk : List WalkStep)
    (order : List Nat) : RunResult :=
  let paths := walkPathTree walk
  runHandlers r clock 0 (order.filterMap (fun i => paths[i]?))

/-- The round is kept by `walkPathTree`: it reports no error and the node is
not a directory. -/
def WalkStep.isFile (w : WalkStep) : Bool := !w.Err && !w.IsDir

/-! ### Concrete runs used below -/

/-- Scenario B of the specification: a walk over one directory and two files. -/
def scenarioB : List WalkStep :=
  [ { Path := "/path".toList, IsDir := true, Err := false },
    { Path := "/path/a.txt".toList, IsDir := false, Err := false },
    { Path := "/path/b.txt".toList, IsDir := false, Err := false } ]

/-- A remote side on which every `Open` and every `Upload` succeeds. -/
def remoteOk : Remote := { openErr := fun _ => false, uploadErr := fun _ => false }

/-- A clock that reads 2024-01-01 throughout. -/
def clockDay1 : Nat → GoString := fun _ => "2024-01-01".toList

end SftpUpload

/-! ## Facts about `Index`, `Count` and `Replace` -/

section StringLemmas

theorem Index_of_isPrefix {s sub : GoString} (h : sub <+: s) : Index s sub = some 0 := by
  cases s with
  | nil =>
    have : sub = [] := List.prefix_nil.mp h
    simp [Index, this]
  | cons c cs =>
    have : sub.isPrefixOf (c :: cs) = true := List.isPrefixOf_iff_prefix.mpr h
    simp [Index, this]

theorem Index_eq_none {s sub : GoString} (h : ¬ sub <:+: s) : Index s sub = none := by
  induction s with
  | nil =>
    have : sub ≠ [] := fun e => h (e ▸ List.infix_refl _)
    simp [Index, this]
  | cons c cs ih =>
    have h1 : ¬ sub <+: c :: cs := fun p => h p.isInfix
    have h2 : ¬ sub <:+: cs := fun p => h (List.infix_cons_iff.mpr (Or.inr p))
    have h3 : sub.isPrefixOf (c :: cs) = false := by
      cases hb : sub.isPrefixOf (c :: cs) with
      | false => rfl
      | true => exact absurd (List.isPrefixOf_iff_prefix.mp hb) h1
    simp [Index, h3, ih h2]

/-- When `sub` does not occur in `u` and no occurrence straddles the seam of
`u ++ sub`, the first occurrence in `u ++ sub` is the trailing one. -/
theorem Index_append_self {sub : GoString} (u : GoString)
    (hu : ¬ sub <:+: u)
    (hseam : ∀ b : GoString, b ≠ [] → b <:+ u → ¬ sub <+: b ++ sub) :
    Index (u ++ sub) sub = some u.length := by
  induction u with
  | nil =>
    simpa using Index_of_isPrefix (List.prefix_refl sub)
  | cons c cs ih =>
    have h1 : ¬ sub <+: (c :: cs) ++ sub :=
      hseam (c :: cs) (by simp) (List.suffix_refl _)
    have h3 : sub.isPrefixOf (c :: (cs ++ sub)) = false := by
      cases hb : sub.isPrefixOf (c :: (cs ++ sub)) with
      | false => rfl
      | true => exact absurd (List.isPrefixOf_iff_prefix.mp hb) h1
    have h2 : ¬ sub <:+: cs := fun p => hu (List.infix_cons_iff.mpr (Or.inr p))
    have ih' := ih h2 (fun b hb hs => hseam b hb (List.suffix_cons_iff.mpr (Or.inr hs)))
    simp [Index, h3, ih']

theorem countLoop_of_not_isInfix {s sub : GoString} (fuel : Nat) (h : ¬ sub <:+: s) :
    countLoop sub fuel s = 0 := by
  cases fuel with
  | zero => rfl
  | succ f => simp [countLoop, Index_eq_none h]

/-- One occurrence at position `i` and none after it: `Count` is one and
`Replace` with `n = -1` cuts exactly that occurrence out. -/
theorem Replace_single {s sub : GoString} {i : Nat} (hne : sub ≠ [])
    (hi : Index s sub = some i) (hrest : ¬ sub <:+: s.drop (i + sub.length)) :
    Replace s sub [] (-1) = s.take i ++ s.drop (i + sub.length) := by
  have hlen : sub.length ≠ 0 := by simpa using hne
  have hc : Count s sub = 1 := by
    simp [Count, hlen, countLoop, hi, countLoop_of_not_isInfix _ hrest]
  have hne' : ¬ (sub = ([] : GoString)) := hne
  simp [Replace, hc, hne', replaceLoop, hlen, hi]

/-- A text that ends in `x` cannot end where a text ending in `c ≠ x` ends. -/
theorem not_isInfix_concat {q X : GoString} {x c : Char} (hx : x ≠ c)
    (h : ¬ (q ++ [x]) <:+: X) : ¬ (q ++ [x]) <:+: X ++ [c] := by
  intro hin
  rcases List.infix_concat_iff.mp hin with hs | hi
  · rcases List.suffix_concat_iff.mp hs with he | ⟨t, ht, _⟩
    · simp at he
    · have := List.append_inj' ht rfl
      simp at this
      exact hx this.2
  · exact h hi

/-- No occurrence of `.zip` straddles the seam of `b ++ ".zip"`. -/
theorem zip_seam (b : GoString) (hb : b ≠ []) (hn : ¬ ".zip".toList <:+: b) :
    ¬ ".zip".toList <+: b ++ ".zip".toList := by
  have hz : ".zip".toList = ['.', 'z', 'i', 'p'] := rfl
  rw [hz] at hn ⊢
  intro hp
  match b, hb with
  | [c], _ => simp [List.cons_prefix_cons] at hp
  | [c, c1], _ => simp [List.cons_prefix_cons] at hp
  | [c, c1, c2], _ => simp [List.cons_prefix_cons] at hp
  | c :: c1 :: c2 :: c3 :: rest, _ =>
    simp only [List.cons_append, List.cons_prefix_cons] at hp
    obtain ⟨h0, h1, h2, h3, _⟩ := hp
    subst h0 h1 h2 h3
    exact hn (List.prefix_append ['.', 'z', 'i', 'p'] rest).isInfix

/-- Cutting `.zip` out of `u ++ ".zip"` gives `u` when `u` holds no `.zip`. -/
theorem Replace_zip_append (u : GoString) (hu : ¬ ".zip".toList <:+: u) :
    Replace (u ++ ".zip".toList) ".zip".toList [] (-1) = u := by
  have hi : Index (u ++ ".zip".toList) ".zip".toList = some u.length :=
    Index_append_self u hu (fun b hb hs =>
      zip_seam b hb (fun hin => hu (hin.trans hs.isInfix)))
  have hd : (u ++ ".zip".toList).drop (u.length + ".zip".toList.length) = [] := by
    simp
  have hr : ¬ ".zip".toList <:+: (u ++ ".zip".toList).drop (u.length + ".zip".toList.length) := by
    rw [hd]; decide
  rw [Replace_single (by decide) hi hr, hd]
  simp

/-- Cutting `old` out of `old ++ r` gives `r` when `r` holds no `old`. -/
theorem Replace_leading (old r : GoString) (hne : old ≠ []) (hr : ¬ old <:+: r) :
    Replace (old ++ r) old [] (-1) = r := by
  have hi : Index (old ++ r) old = some 0 := Index_of_isPrefix (List.prefix_append old r)
  have hd : (old ++ r).drop (0 + old.length) = r := by simp
  rw [Replace_single hne hi (by rw [hd]; exact hr), hd]
  simp

/-- A position that `Index` returns is the start of an occurrence. -/
theorem Index_some_isPrefix {s sub : GoString} {i : Nat} (h : Index s sub = some i) :
    sub <+: s.drop i := by
  induction s generalizing i with
  | nil =>
    unfold Index at h
    split at h
    · rename_i h0
      cases h
      have : sub = [] := List.length_eq_zero.mp h0
      simp [this]
    · cases h
  | cons c cs ih =>
    unfold Index at h
    split at h
    · rename_i hp
      cases h
      simpa using List.isPrefixOf_iff_prefix.mp hp
    · cases hi : Index cs sub with
      | none => simp [hi] at h
      | some k =>
        simp [hi] at h
        subst h
        simpa using ih hi

/-- A non-empty text is found only in a non-empty text. -/
theorem ne_nil_of_Index_some {s sub : GoString} {i : Nat} (hne : sub ≠ [])
    (h : Index s sub = some i) : s ≠ [] := by
  intro hs
  subst hs
  simp [Index, hne] at h

/-- The fuel of `countLoop` is enough: any amount above `len(s)` gives the
same count, so `Count` never stops early. -/
theorem countLoop_fuel {sub : GoString} (hne : sub ≠ []) (f1 f2 : Nat) (s : GoString)
    (h1 : s.length < f1) (h2 : s.length < f2) :
    countLoop sub f1 s = countLoop sub f2 s := by
  induction f1 generalizing f2 s with
  | zero => omega
  | succ f1 ih =>
    cases f2 with
    | zero => omega
    | succ f2 =>
      unfold countLoop
      cases hi : Index s sub with
      | none => rfl
      | some i =>
        have hs : s ≠ [] := ne_nil_of_Index_some hne hi
        have hpos : 0 < s.length := List.length_pos.mpr hs
        have hsub : 0 < sub.length := List.length_pos.mpr hne
        have hd : (s.drop (i + sub.length)).length < s.length := by
          rw [List.length_drop]; omega
        simp only
        rw [ih f2 _ (by omega) (by omega)]

/-- For a non-empty `old` the loop of `Replace` does not look at the round
number. -/
theorem replaceLoop_first {old new : GoString} (hne : old ≠ []) (k : Nat) (b b' : Bool)
    (rest : GoString) : replaceLoop old new k b rest = replaceLoop old new k b' rest := by
  have hlen : old.length ≠ 0 := by simpa using hne
  cases k with
  | zero => rfl
  | succ k => simp [replaceLoop, hlen]

/-- With `n = -1` and a non-empty `old`, `Replace` runs its loop `Count`
times. -/
theorem Replace_all_eq (s old : GoString) (hne : old ≠ []) :
    Replace s old [] (-1) = replaceLoop old [] (Count s old) true s := by
  have hne' : ¬ (old = ([] : GoString)) := hne
  unfold Replace
  cases hm : Count s old with
  | zero => simp [hne', replaceLoop]
  | succ m => simp [hne']

/-- With `n = -1`, an occurrence of `old` at the start is cut out, and what
follows it is treated as `Replace` treats it on its own: every further
occurrence is cut out as well. -/
theorem Replace_leading_all (old r : GoString) (hne : old ≠ []) :
    Replace (old ++ r) old [] (-1) = Replace r old [] (-1) := by
  have hlen : old.length ≠ 0 := by simpa using hne
  have hi : Index (old ++ r) old = some 0 := Index_of_isPrefix (List.prefix_append old r)
  have hpos : 0 < old.length := List.length_pos.mpr hne
  have hc : Count (old ++ r) old = Count r old + 1 := by
    simp only [Count, hlen, if_false, List.length_append]
    rw [show old.length + r.length + 1 = (old.length + r.length) + 1 from rfl]
    conv_lhs => unfold countLoop
    simp only [hi, Nat.zero_add, List.drop_left]
    rw [countLoop_fuel hne (old.length + r.length) (r.length + 1) r (by omega) (by omega)]
  rw [Replace_all_eq _ _ hne, Replace_all_eq _ _ hne, hc]
  conv_lhs => unfold replaceLoop
  simp only [hlen, if_false, hi, Nat.zero_add, List.take_zero, List.nil_append,
    List.drop_left]
  exact replaceLoop_first hne _ _ _ _

end StringLemmas

namespace S3Unzipper

theorem sourcePath_ne_nil (d : GoString) : sourcePath d ≠ [] := by
  simp [sourcePath]

theorem sourcePath_eq_concat (d : GoString) :
    sourcePath d = ("new-bucket/".toList ++ d ++ "/path".toList) ++ ['/'] := by
  simp [sourcePath]

/-- The source path ends in `/`, so it cannot end inside a trailing `.zip`. -/
theorem sourcePath_not_isInfix_zip (d s : GoString) (h : ¬ sourcePath d <:+: s) :
    ¬ sourcePath d <:+: s ++ ".zip".toList := by
  have hz : s ++ ".zip".toList = (((s ++ ['.']) ++ ['z']) ++ ['i']) ++ ['p'] := by
    simp
  rw [hz, sourcePath_eq_concat] at *
  exact not_isInfix_concat (by decide) (not_isInfix_concat (by decide)
    (not_isInfix_concat (by decide) (not_isInfix_concat (by decide) h)))

end S3Unzipper

/-! ## The wait-group counter of the archive variant -/

namespace S3Unzipper

theorem countP_set_of_getElem? {α : Type} (p : α → Bool) (l : List α) (i : Nat) (a b : α)
    (h : l[i]? = some a) :
    (l.set i b).countP p + (if p a then 1 else 0) = l.countP p + (if p b then 1 else 0) := by
  induction l generalizing i with
  | nil => simp at h
  | cons x xs ih =>
    cases i with
    | zero =>
      simp at h
      subst h
      simp only [List.set_cons_zero, List.countP_cons]
      omega
    | succ i =>
      simp at h
      have := ih i h
      simp only [List.set_cons_succ, List.countP_cons]
      omega

theorem Inv_init (pages : List (Option (List Object))) : Inv (init pages) := by
  constructor <;> simp [init, outstanding]

theorem all_finished_of_counter_zero {s : State} (hinv : Inv s) (h0 : s.counter = 0) :
    (∀ t ∈ s.items, t.pc = ItemPc.finished) ∧ (∀ u ∈ s.units, u.pc = UnitPc.finished) := by
  have hc := hinv.counter_eq
  rw [h0] at hc
  have hz : outstanding s = 0 := by exact_mod_cast hc.symm
  unfold outstanding at hz
  have hi : s.items.countP ItemTask.outstanding = 0 := by omega
  have hu : s.units.countP UnitTask.outstanding = 0 := by omega
  rw [List.countP_eq_zero] at hi hu
  refine ⟨fun t ht => ?_, fun u hu' => ?_⟩
  · have := hi t ht
    cases hpc : t.pc <;> simp [ItemTask.outstanding, hpc] at this ⊢
  · have := hu u hu'
    cases hpc : u.pc <;> simp [UnitTask.outstanding, hpc] at this ⊢

theorem step_none_of_returned {s : State} (hinv : Inv s) (hr : s.returned = true) (a : Action) :
    step s a = none := by
  obtain ⟨hpage, hpages, h0⟩ := hinv.returned_idle hr
  obtain ⟨hitems, hunits⟩ := all_finished_of_counter_zero hinv h0
  unfold step
  split
  · rfl
  · cases a with
    | main => simp [stepMain, hpage, hpages, hr]
    | item i =>
      show stepItem s i = none
      cases hget : s.items[i]? with
      | none => simp [stepItem, hget]
      | some t =>
        have := hitems t (List.getElem?_mem hget)
        simp [stepItem, hget, this]
    | unit j n54 n57 =>
      show stepUnit s j n54 n57 = none
      cases hget : s.units[j]? with
      | none => simp [stepUnit, hget]
      | some u =>
        have := hunits u (List.getElem?_mem hget)
        simp [stepUnit, hget, this]

theorem stepMain_inv {s s' : State} (hinv : Inv s) (hr : s.returned = false)
    (h : stepMain s = some s') : Inv s' := by
  have hc := hinv.counter_eq
  unfold stepMain at h
  split at h
  · cases h
    constructor
    · simp [outstanding, ItemTask.outstanding, hc]
      omega
    · simp [hr]
  · cases h
    constructor
    · simpa [outstanding] using hc
    · simp [hr]
  · cases h
    constructor
    · simpa [outstanding] using hc
    · simp [hr]
  · rename_i hpage hpages
    split at h
    · rename_i hcond
      cases h
      constructor
      · simpa [outstanding] using hc
      · intro _
        exact ⟨hpage, hpages, hcond.1⟩
    · cases h

theorem stepItem_inv {s s' : State} (hinv : Inv s) (hr : s.returned = false) (i : Nat)
    (h : stepItem s i = some s') : Inv s' := by
  have hc := hinv.counter_eq
  unfold stepItem at h
  cases hget : s.items[i]? with
  | none => simp [hget] at h
  | some t =>
    obtain ⟨obj, pc⟩ := t
    simp only [hget] at h
    cases pc with
    | fetch =>
      simp only at h
      cases hf : obj.File with
      | none =>
        simp only [hf] at h
        cases h
        have := countP_set_of_getElem? ItemTask.outstanding s.items i _ ⟨obj, .fatal⟩ hget
        constructor
        · simp [outstanding, ItemTask.outstanding] at this ⊢
          rw [hc]; simp [outstanding]; omega
        · simp [hr]
      | some files =>
        simp only [hf] at h
        cases h
        have := countP_set_of_getElem? ItemTask.outstanding s.items i _ ⟨obj, .range files⟩ hget
        constructor
        · simp [outstanding, ItemTask.outstanding] at this ⊢
          rw [hc]; simp [outstanding]; omega
        · simp [hr]
    | range rest =>
      cases rest with
      | nil =>
        simp only at h
        cases h
        have := countP_set_of_getElem? ItemTask.outstanding s.items i _ ⟨obj, .finished⟩ hget
        constructor
        · simp [outstanding, ItemTask.outstanding] at this ⊢
          rw [hc]; simp [outstanding]; omega
        · simp [hr]
      | cons zf rest =>
        simp only at h
        cases h
        have := countP_set_of_getElem? ItemTask.outstanding s.items i _ ⟨obj, .range rest⟩ hget
        constructor
        · simp [outstanding, ItemTask.outstanding, UnitTask.outstanding] at this ⊢
          rw [hc]; simp [outstanding]; omega
        · simp [hr]
    | finished => simp at h
    | fatal => simp at h

theorem stepUnit_inv {s s' : State} (hinv : Inv s) (hr : s.returned = false) (j : Nat)
    (n54 n57 : GoString) (h : stepUnit s j n54 n57 = some s') : Inv s' := by
  have hc := hinv.counter_eq
  unfold stepUnit at h
  cases hget : s.units[j]? with
  | none => simp [hget] at h
  | some u =>
    obtain ⟨zf, obj, pc⟩ := u
    simp only [hget] at h
    cases pc with
    | running =>
      simp only at h
      cases ho : uploadUnzippedFile zf obj n54 n57 with
      | uploaded key =>
        simp only [ho] at h
        cases h
        have := countP_set_of_getElem? UnitTask.outstanding s.units j _ ⟨zf, obj, .finished⟩ hget
        constructor
        · simp [outstanding, UnitTask.outstanding] at this ⊢
          rw [hc]; simp [outstanding]; omega
        · simp [hr]
      | fatalOpen =>
        simp only [ho] at h
        cases h
        have := countP_set_of_getElem? UnitTask.outstanding s.units j _ ⟨zf, obj, .fatal⟩ hget
        constructor
        · simp [outstanding, UnitTask.outstanding] at this ⊢
          rw [hc]; simp [outstanding]; omega
        · simp [hr]
      | fatalUpload key =>
        simp only [ho] at h
        cases h
        have := countP_set_of_getElem? UnitTask.outstanding s.units j _ ⟨zf, obj, .fatal⟩ hget
        constructor
        · simp [outstanding, UnitTask.outstanding] at this ⊢
          rw [hc]; simp [outstanding]; omega
        · simp [hr]
    | finished => simp at h
    | fatal => simp at h

theorem step_inv {s s' : State} (hinv : Inv s) (a : Action) (h : step s a = some s') :
    Inv s' := by
  cases hr : s.returned with
  | true => rw [step_none_of_returned hinv hr a] at h; cases h
  | false =>
    unfold step at h
    split at h
    · cases h
    · cases a with
      | main => exact stepMain_inv hinv hr h
      | item i => exact stepItem_inv hinv hr i h
      | unit j n54 n57 => exact stepUnit_inv hinv hr j n54 n57 h

theorem run_inv {s s' : State} (hinv : Inv s) (as : List Action) (h : run s as = some s') :
    Inv s' := by
  induction as generalizing s with
  | nil => simp [run] at h; exact h ▸ hinv
  | cons a rest ih =>
    unfold run at h
    cases hs : step s a with
    | none => simp [hs] at h
    | some s1 =>
      simp only [hs] at h
      exact ih (step_inv hinv a hs) h

end S3Unzipper

/-! ## The archive run: counter, fan-out and failure -/

namespace S3Unzipper

/-- C1: in every state that a run of the archive variant reaches, the
wait-group counter equals the number of spawned per-item and per-unit tasks
that have not finished; so the counter is zero exactly when every spawned
task of both levels has finished, and `wg.Wait()` of `HandleRequest` has
returned only in such a state. -/
theorem counter_eq_outstanding (pages : List (Option (List Object))) (as : List Action)
    (s : State) (h : run (init pages) as = some s) :
    s.counter = (outstanding s : Int)
      ∧ (s.counter = 0 ↔
          (∀ t ∈ s.items, t.pc = ItemPc.finished) ∧ (∀ u ∈ s.units, u.pc = UnitPc.finished))
      ∧ (s.returned = true →
          (∀ t ∈ s.items, t.pc = ItemPc.finished) ∧ (∀ u ∈ s.units, u.pc = UnitPc.finished)) := by
  have hinv : Inv s := run_inv (Inv_init pages) as h
  refine ⟨hinv.counter_eq, ⟨all_finished_of_counter_zero hinv, fun hall => ?_⟩, fun hr => ?_⟩
  · rw [hinv.counter_eq]
    have hi : s.items.countP ItemTask.outstanding = 0 := by
      rw [List.countP_eq_zero]
      intro t ht
      simp [ItemTask.outstanding, hall.1 t ht]
    have hu : s.units.countP UnitTask.outstanding = 0 := by
      rw [List.countP_eq_zero]
      intro u hu
      simp [UnitTask.outstanding, hall.2 u hu]
    simp [outstanding, hi, hu]
  · exact all_finished_of_counter_zero hinv (hinv.returned_idle hr).2.2

/-- C1 at scenario A, after both per-unit tasks were spawned and the first of
them has finished: the counter is 2, and two tasks are outstanding. -/
theorem counter_eq_outstanding_witness :
    run (init [some [scenarioA]])
        [.main, .main, .item 0, .item 0, .item 0, .unit 0 day1 day1] = some scenarioAMid
      ∧ scenarioAMid.counter = 2
      ∧ scenarioAMid.counter = (outstanding scenarioAMid : Int) :=
  ⟨by decide, by decide,
    (counter_eq_outstanding [some [scenarioA]]
      [.main, .main, .item 0, .item 0, .item 0, .unit 0 day1 day1] scenarioAMid (by decide)).1⟩

end S3Unzipper

/-! ## The destination key of the archive variant -/

namespace S3Unzipper

/-- C2: for a run date `d`, an entry name `n` and a text `s` that holds
neither `.zip` nor the source path of `d`, the key derived for the object key
`"new-bucket/" ++ d ++ "/path/" ++ s ++ ".zip"` and the entry `n`, with the
clock reading `d`, is `"new-bucket/unzipped/" ++ d ++ "/" ++ s ++ "/" ++ n`. -/
theorem destinationKey_layout (d n s : GoString)
    (hzip : ¬ ".zip".toList <:+: s)
    (hsrc : ¬ ("new-bucket/".toList ++ d ++ "/path/".toList) <:+: s) :
    destinationKey d d ("new-bucket/".toList ++ d ++ "/path/".toList ++ s ++ ".zip".toList) n
      = "new-bucket/unzipped/".toList ++ d ++ "/".toList ++ s ++ "/".toList ++ n := by
  have h54 : unzippedFolderName54 d (sourcePath d ++ (s ++ ".zip".toList))
      = s ++ ".zip".toList :=
    Replace_leading _ _ (sourcePath_ne_nil d) (sourcePath_not_isInfix_zip d s hsrc)
  have h55 : unzippedFolderName55 (s ++ ".zip".toList) = s := Replace_zip_append s hzip
  have hk : "new-bucket/".toList ++ d ++ "/path/".toList ++ s ++ ".zip".toList
      = sourcePath d ++ (s ++ ".zip".toList) := by
    simp [sourcePath]
  have hroot : "new-bucket/unzipped/".toList = "new-bucket/unzipped".toList ++ "/".toList := rfl
  rw [hk]
  simp only [destinationKey, unzippedFolderName, h54, h55, hroot, List.append_assoc]

/-- The example of C2: the archive `archive.zip` with the entries `a.txt` and
`b/c.txt`, on 2024-01-01. -/
theorem destinationKey_layout_witness :
    destinationKey "2024-01-01".toList "2024-01-01".toList
        ("new-bucket/".toList ++ "2024-01-01".toList ++ "/path/".toList
          ++ "archive".toList ++ ".zip".toList) "a.txt".toList
      = "new-bucket/unzipped/".toList ++ "2024-01-01".toList ++ "/".toList
          ++ "archive".toList ++ "/".toList ++ "a.txt".toList
    ∧ destinationKey "2024-01-01".toList "2024-01-01".toList
        "new-bucket/2024-01-01/path/archive.zip".toList "b/c.txt".toList
      = "new-bucket/unzipped/2024-01-01/archive/b/c.txt".toList :=
  ⟨destinationKey_layout "2024-01-01".toList "a.txt".toList "archive".toList
      (by decide) (by decide),
    by decide⟩

end S3Unzipper

namespace S3Unzipper

/-- C3, as stated, fails: `strings.Replace` with `n = -1` cuts out every
occurrence of the source path, not the leading one alone. For the key made
of the source path twice and `a.zip` the result is `a.zip`, not the key
without its first `len(P)` characters; and for the key
`P ++ "new-" ++ P ++ "bucket/2024-01-01/path/"` the result is `P` itself, so
the result holds an occurrence of `P`. -/
theorem stripSourcePath_counterexample :
    (sourcePath "2024-01-01".toList
        <+: "new-bucket/2024-01-01/path/new-bucket/2024-01-01/path/a.zip".toList
      ∧ unzippedFolderName54 "2024-01-01".toList
          "new-bucket/2024-01-01/path/new-bucket/2024-01-01/path/a.zip".toList
        = "a.zip".toList
      ∧ List.drop (sourcePath "2024-01-01".toList).length
          "new-bucket/2024-01-01/path/new-bucket/2024-01-01/path/a.zip".toList
        = "new-bucket/2024-01-01/path/a.zip".toList)
    ∧ (sourcePath "2024-01-01".toList
        <+: "new-bucket/2024-01-01/path/new-new-bucket/2024-01-01/path/bucket/2024-01-01/path/".toList
      ∧ unzippedFolderName54 "2024-01-01".toList
          "new-bucket/2024-01-01/path/new-new-bucket/2024-01-01/path/bucket/2024-01-01/path/".toList
        = sourcePath "2024-01-01".toList) := by
  decide

/-- C3, amended: for a run date `d` and a key `k` that begins with the source
path `P` of `d` and holds no other occurrence of `P` after it, line 54 gives
`k` without its first `len(P)` characters, and the result holds no
occurrence of `P`. -/
theorem stripSourcePath_single (d k : GoString)
    (hk : sourcePath d <+: k)
    (hone : ¬ sourcePath d <:+: k.drop (sourcePath d).length) :
    unzippedFolderName54 d k = k.drop (sourcePath d).length
      ∧ ¬ sourcePath d <:+: unzippedFolderName54 d k := by
  obtain ⟨r, rfl⟩ := hk
  have hd : (sourcePath d ++ r).drop (sourcePath d).length = r := by simp
  rw [hd] at hone ⊢
  have h : unzippedFolderName54 d (sourcePath d ++ r) = r :=
    Replace_leading _ _ (sourcePath_ne_nil d) hone
  rw [h]
  exact ⟨rfl, hone⟩

/-- The amended C3 at the key `new-bucket/2024-01-01/path/archive.zip`. -/
theorem stripSourcePath_single_witness :
    unzippedFolderName54 "2024-01-01".toList "new-bucket/2024-01-01/path/archive.zip".toList
        = List.drop (sourcePath "2024-01-01".toList).length
            "new-bucket/2024-01-01/path/archive.zip".toList
      ∧ ¬ sourcePath "2024-01-01".toList
          <:+: unzippedFolderName54 "2024-01-01".toList
            "new-bucket/2024-01-01/path/archive.zip".toList :=
  stripSourcePath_single "2024-01-01".toList "new-bucket/2024-01-01/path/archive.zip".toList
    (by decide) (by decide)

/-- C4, as stated, fails: line 55 cuts out every `.zip`, also one inside the
name. From `a.zipb.zip` it makes `ab`, not `a.zipb`. -/
theorem stripZip_counterexample :
    unzippedFolderName55 ("a.zipb".toList ++ ".zip".toList) = "ab".toList
      ∧ unzippedFolderName55 ("a.zipb".toList ++ ".zip".toList) ≠ "a.zipb".toList := by
  decide

/-- C4, amended: for a text `u` that holds no `.zip`, the folder name that
line 55 computes from `u ++ ".zip"` is `u`. -/
theorem stripZip_of_no_zip (u : GoString) (hu : ¬ ".zip".toList <:+: u) :
    unzippedFolderName55 (u ++ ".zip".toList) = u :=
  Replace_zip_append u hu

/-- The amended C4 at `archive.zip`. -/
theorem stripZip_of_no_zip_witness :
    unzippedFolderName55 ("archive".toList ++ ".zip".toList) = "archive".toList :=
  stripZip_of_no_zip "archive".toList (by decide)

/-- C5 holds of the specification and the code misses it: the date is read
from the clock inside every call of `uploadUnzippedFile` (lines 54 and 57),
while the listing prefix of line 30 is built once, at load. For the object
`new-bucket/2024-01-01/path/archive.zip`, listed under the prefix of
2024-01-01, and the entry `a.txt`: a derivation made while the clock reads
2024-01-01 gives `new-bucket/unzipped/2024-01-01/archive/a.txt`; a derivation
made after midnight finds no prefix to strip on line 54 and gives a key that
keeps the whole source path. The two keys differ, and in one run the two
units of an archive that stores `a.txt` twice are uploaded under different
keys when midnight passes between them. -/
theorem destinationKey_clock_drift :
    sourcePath day1 <+: "new-bucket/2024-01-01/path/archive.zip".toList
    ∧ destinationKey day1 day1 "new-bucket/2024-01-01/path/archive.zip".toList "a.txt".toList
      = "new-bucket/unzipped/2024-01-01/archive/a.txt".toList
    ∧ unzippedFolderName54 day2 "new-bucket/2024-01-01/path/archive.zip".toList
      = "new-bucket/2024-01-01/path/archive.zip".toList
    ∧ destinationKey day2 day2 "new-bucket/2024-01-01/path/archive.zip".toList "a.txt".toList
      = "new-bucket/unzipped/2024-01-02/new-bucket/2024-01-01/path/archive/a.txt".toList
    ∧ destinationKey day1 day1 "new-bucket/2024-01-01/path/archive.zip".toList "a.txt".toList
      ≠ destinationKey day2 day2 "new-bucket/2024-01-01/path/archive.zip".toList "a.txt".toList
    ∧ (run (init [some [scenarioTwice]])
        [.main, .main, .item 0, .item 0, .item 0, .item 0,
          .unit 0 day1 day1, .unit 1 day2 day2]).map State.uploads
      = some
        [ "new-bucket/unzipped/2024-01-01/archive/a.txt".toList,
          "new-bucket/unzipped/2024-01-02/new-bucket/2024-01-01/path/archive/a.txt".toList ] := by
  decide

/-- C10: for an object key `k`, an entry name `n` and two distinct run dates
of ten characters each, the key derived with the one date differs from the
key derived with the other. -/
theorem destinationKey_date_injective (k n d1 d2 : GoString)
    (h1 : d1.length = 10) (h2 : d2.length = 10) (hne : d1 ≠ d2) :
    destinationKey d1 d1 k n ≠ destinationKey d2 d2 k n := by
  intro h
  simp only [destinationKey, List.append_assoc] at h
  have h' := List.append_cancel_left h
  have h'' := List.append_cancel_left h'
  exact hne (List.append_inj h'' (by rw [h1, h2])).1

/-- C10 at the dates 2024-01-01 and 2024-01-02. -/
theorem destinationKey_date_injective_witness :
    destinationKey "2024-01-01".toList "2024-01-01".toList
        "new-bucket/2024-01-01/path/archive.zip".toList "a.txt".toList
      ≠ destinationKey "2024-01-02".toList "2024-01-02".toList
        "new-bucket/2024-01-01/path/archive.zip".toList "a.txt".toList :=
  destinationKey_date_injective "new-bucket/2024-01-01/path/archive.zip".toList "a.txt".toList
    "2024-01-01".toList "2024-01-02".toList (by decide) (by decide) (by decide)

end S3Unzipper

namespace S3Unzipper

/-- The loop of line 122, run to its end by the `i`-th per-item task alone:
one per-unit task per entry, in the order of the entries, then `wg.Done()`. -/
theorem run_range (i : Nat) (obj : Object) (files : List ZipFile) (s : State)
    (hex : s.exited = false) (hi : s.items[i]? = some ⟨obj, .range files⟩) :
    ∃ s', run s (List.replicate (files.length + 1) (.item i)) = some s'
      ∧ s'.units = s.units ++ files.map (fun zipFile => ⟨zipFile, obj, .running⟩)
      ∧ s'.exited = false
      ∧ s'.items = s.items.set i ⟨obj, .finished⟩
      ∧ s'.counter = s.counter + files.length - 1
      ∧ s'.uploads = s.uploads := by
  induction files generalizing s with
  | nil =>
    refine ⟨{ s with counter := s.counter - 1, items := s.items.set i ⟨obj, .finished⟩ }, ?_⟩
    simp [run, step, hex, stepItem, hi]
  | cons zf rest ih =>
    have hlt : i < s.items.length := by
      rcases List.getElem?_eq_some.mp hi with ⟨h, _⟩
      exact h
    let s1 : State :=
      { s with
        counter := s.counter + 1
        units := s.units ++ [⟨zf, obj, .running⟩]
        items := s.items.set i ⟨obj, .range rest⟩ }
    have hstep : step s (.item i) = some s1 := by
      simp [step, hex, stepItem, hi, s1]
    have hi1 : s1.items[i]? = some ⟨obj, .range rest⟩ := by
      simp [s1, List.getElem?_set_self, hlt]
    obtain ⟨s', hrun, hunits, hex', hitems, hcounter, huploads⟩ := ih s1 hex hi1
    refine ⟨s', ?_, ?_, hex', ?_, ?_, ?_⟩
    · show run s (Action.item i :: List.replicate (rest.length + 1) (.item i)) = some s'
      simp only [run, hstep]
      exact hrun
    · rw [hunits]; simp [s1]
    · rw [hitems]; simp [s1]
    · rw [hcounter]; simp [s1]; omega
    · rw [huploads]

/-- C6: a per-item task whose container decodes to the entries `files` spawns,
when it runs to its end, exactly one publish task per entry, the `i`-th for
the `i`-th entry paired with the task's own object, in the stored order and
with repeated names kept; it raises no error, also for no entries at all. -/
theorem item_spawns_one_unit_per_entry (i : Nat) (obj : Object) (files : List ZipFile)
    (s : State) (hex : s.exited = false) (hi : s.items[i]? = some ⟨obj, .fetch⟩)
    (hf : obj.File = some files) :
    ∃ s', run s (List.replicate (files.length + 2) (.item i)) = some s'
      ∧ s'.units = s.units ++ files.map (fun zipFile => ⟨zipFile, obj, .running⟩)
      ∧ s'.units.length = s.units.length + files.length
      ∧ s'.exited = false
      ∧ s'.items[i]? = some ⟨obj, .finished⟩ := by
  have hlt : i < s.items.length := by
    rcases List.getElem?_eq_some.mp hi with ⟨h, _⟩
    exact h
  let s1 : State := { s with items := s.items.set i ⟨obj, .range files⟩ }
  have hstep : step s (.item i) = some s1 := by
    simp [step, hex, stepItem, hi, hf, s1]
  have hi1 : s1.items[i]? = some ⟨obj, .range files⟩ := by
    simp [s1, List.getElem?_set_self, hlt]
  obtain ⟨s', hrun, hunits, hex', hitems, _, _⟩ := run_range i obj files s1 hex hi1
  refine ⟨s', ?_, ?_, ?_, hex', ?_⟩
  · show run s (Action.item i :: List.replicate (files.length + 1) (.item i)) = some s'
    simp only [run, hstep]
    exact hrun
  · rw [hunits]
  · rw [hunits]; simp [s1]
  · rw [hitems]; simp [s1, List.getElem?_set_self, hlt]

/-- C6 at scenario A: the per-item task spawns the task for `a.txt`, then the
task for `b/c.txt`, both paired with `archive.zip`. -/
theorem item_spawns_one_unit_per_entry_witness :
    ∃ s', run scenarioASpawned (List.replicate (2 + 2) (.item 0)) = some s'
      ∧ s'.units = scenarioASpawned.units ++
          [ { Name := "a.txt".toList, openErr := false, uploadErr := false },
            { Name := "b/c.txt".toList, openErr := false, uploadErr := false } ].map
            (fun zipFile => ⟨zipFile, scenarioA, .running⟩)
      ∧ s'.units.length = scenarioASpawned.units.length + 2
      ∧ s'.exited = false
      ∧ s'.items[0]? = some ⟨scenarioA, .finished⟩ :=
  item_spawns_one_unit_per_entry 0 scenarioA
    [ { Name := "a.txt".toList, openErr := false, uploadErr := false },
      { Name := "b/c.txt".toList, openErr := false, uploadErr := false } ]
    scenarioASpawned rfl rfl rfl

/-- Once the process has exited, no sequence of moves is possible. -/
theorem run_none_of_exited {s : State} (hex : s.exited = true) (a : Action) (as : List Action) :
    run s (a :: as) = none := by
  simp [run, step, hex]

/-- C7, as stated, fails: in the failing scenario the upload of `a.txt`
returns an error, `uploadUnzippedFile` calls `log.Fatalln`, and the run is
aborted: the process has exited, nothing was uploaded, and the sibling task
for `b/c.txt` is still where it was spawned and cannot move. -/
theorem upload_failure_counterexample :
    run (init [some [scenarioFail]]) [.main, .main, .item 0, .item 0, .item 0, .item 0]
        = some scenarioFailBefore
      ∧ step scenarioFailBefore (.unit 0 day1 day1) = some scenarioFailAfter
      ∧ scenarioFailAfter.exited = true
      ∧ scenarioFailAfter.units.map UnitTask.pc = [UnitPc.fatal, UnitPc.running]
      ∧ scenarioFailAfter.uploads = []
      ∧ step scenarioFailAfter (.unit 1 day1 day1) = none := by
  decide

/-- C7, amended: a unit whose upload returns an error makes
`uploadUnzippedFile` call `log.Fatalln` with the failure of that unit, and
that call terminates the process: the run is aborted, no goroutine moves any
more, and the other tasks stay as they were, so a sibling unit that had not
run its upload never reaches an upload result. -/
theorem upload_failure_aborts_run (s : State) (j : Nat) (u : UnitTask)
    (now54 now57 : GoString) (hex : s.exited = false) (hget : s.units[j]? = some u)
    (hpc : u.pc = UnitPc.running) (hopen : u.zipFile.openErr = false)
    (hup : u.zipFile.uploadErr = true) :
    uploadUnzippedFile u.zipFile u.obj now54 now57
        = .fatalUpload (destinationKey now54 now57 u.obj.Key u.zipFile.Name)
      ∧ ∃ s', step s (.unit j now54 now57) = some s'
        ∧ s'.exited = true
        ∧ (∀ a as, run s' (a :: as) = none)
        ∧ (∀ k, k ≠ j → s'.units[k]? = s.units[k]?)
        ∧ s'.items = s.items
        ∧ s'.uploads = s.uploads := by
  have ho : uploadUnzippedFile u.zipFile u.obj now54 now57
      = .fatalUpload (destinationKey now54 now57 u.obj.Key u.zipFile.Name) := by
    simp [uploadUnzippedFile, hopen, hup]
  refine ⟨ho, { s with units := s.units.set j ⟨u.zipFile, u.obj, .fatal⟩, exited := true },
    ?_, rfl, fun a as => run_none_of_exited rfl a as, fun k hk => ?_, rfl, rfl⟩
  · simp [step, hex, stepUnit, hget, hpc, ho]
  · simp [List.getElem?_set_ne (Ne.symm hk)]

/-- The amended C7 at the failing scenario. -/
theorem upload_failure_aborts_run_witness :
    uploadUnzippedFile { Name := "a.txt".toList, openErr := false, uploadErr := true }
        scenarioFail day1 day1
        = .fatalUpload (destinationKey day1 day1 scenarioFail.Key "a.txt".toList)
      ∧ ∃ s', step scenarioFailBefore (.unit 0 day1 day1) = some s'
        ∧ s'.exited = true
        ∧ (∀ a as, run s' (a :: as) = none)
        ∧ (∀ k, k ≠ 0 → s'.units[k]? = scenarioFailBefore.units[k]?)
        ∧ s'.items = scenarioFailBefore.items
        ∧ s'.uploads = scenarioFailBefore.uploads :=
  upload_failure_aborts_run scenarioFailBefore 0
    ⟨{ Name := "a.txt".toList, openErr := false, uploadErr := true }, scenarioFail, .running⟩
    day1 day1 rfl rfl rfl rfl rfl

end S3Unzipper

/-! ## The tree-walk variant -/

namespace SftpUpload

theorem walkPathTree_foldl (walk : List WalkStep) (acc : List GoString) :
    walk.foldl
        (fun paths w =>
          if w.Err then paths
          else if !w.IsDir then paths ++ [w.Path]
          else paths)
        acc
      = acc ++ (walk.filter WalkStep.isFile).map WalkStep.Path := by
  induction walk generalizing acc with
  | nil => simp
  | cons w rest ih =>
    rw [List.foldl_cons, ih]
    cases he : w.Err <;> cases hd : w.IsDir <;> simp [WalkStep.isFile, he, hd]

theorem walkPathTree_eq (walk : List WalkStep) :
    walkPathTree walk = (walk.filter WalkStep.isFile).map WalkStep.Path := by
  simpa [walkPathTree] using walkPathTree_foldl walk []

theorem filterMap_getElem?_range (l : List GoString) :
    (List.range l.length).filterMap (fun i => l[i]?) = l := by
  induction l using List.reverseRecOn with
  | nil => simp
  | append_singleton l a ih =>
    rw [List.length_append, List.length_singleton, List.range_succ, List.filterMap_append]
    have h1 : (List.range l.length).filterMap (fun i => (l ++ [a])[i]?)
        = (List.range l.length).filterMap (fun i => l[i]?) := by
      apply List.filterMap_congr
      intro i hi
      rw [List.mem_range] at hi
      simp [List.getElem?_append_left hi]
    rw [h1, ih]
    simp

theorem runHandlers_all_ok (r : Remote) (clock : Nat → GoString) (d : GoString)
    (hopen : ∀ p, r.openErr p = false) (hup : ∀ k, r.uploadErr k = false)
    (hclock : ∀ t, clock t = d) (t : Nat) (paths : List GoString) :
    runHandlers r clock t paths
      = { published := paths.map (fun p => "new-bucket/".toList ++ d ++ p), exited := false } := by
  induction paths generalizing t with
  | nil => rfl
  | cons p rest ih =>
    simp [runHandlers, fileHandler, hopen, hup, hclock, ih]

/-- C8: when every open and every upload succeeds and the clock reads `d`,
`walkPathTree` returns, in walk order, the paths of the rounds that report no
error and are no directory, and the run publishes exactly one object for each
of them and none for any other round; the key published for the path `p` is
`"new-bucket/" ++ d ++ p`. The handler goroutines may run in any order. -/
theorem treeWalk_publishes_files (r : Remote) (clock : Nat → GoString) (d : GoString)
    (walk : List WalkStep) (order : List Nat)
    (hopen : ∀ p, r.openErr p = false) (hup : ∀ k, r.uploadErr k = false)
    (hclock : ∀ t, clock t = d)
    (horder : order.Perm (List.range (walkPathTree walk).length)) :
    walkPathTree walk = (walk.filter WalkStep.isFile).map WalkStep.Path
      ∧ (HandleRequest r clock walk order).exited = false
      ∧ (HandleRequest r clock walk order).published.Perm
          ((walk.filter WalkStep.isFile).map (fun w => "new-bucket/".toList ++ d ++ w.Path))
      ∧ (HandleRequest r clock walk order).published.length = walk.countP WalkStep.isFile := by
  have hrun : HandleRequest r clock walk order
      = { published := (order.filterMap (fun i => (walkPathTree walk)[i]?)).map
            (fun p => "new-bucket/".toList ++ d ++ p),
          exited := false } := by
    simp only [HandleRequest]
    exact runHandlers_all_ok r clock d hopen hup hclock 0 _
  have hperm : (order.filterMap (fun i => (walkPathTree walk)[i]?)).Perm (walkPathTree walk) := by
    have := horder.filterMap (fun i => (walkPathTree walk)[i]?)
    rwa [filterMap_getElem?_range] at this
  have hpub : (HandleRequest r clock walk order).published.Perm
      ((walk.filter WalkStep.isFile).map (fun w => "new-bucket/".toList ++ d ++ w.Path)) := by
    rw [hrun]
    have := hperm.map (fun p => "new-bucket/".toList ++ d ++ p)
    rw [walkPathTree_eq, List.map_map] at this
    rw [walkPathTree_eq]
    exact this
  refine ⟨walkPathTree_eq walk, by rw [hrun], hpub, ?_⟩
  rw [hpub.length_eq, List.length_map, List.countP_eq_length_filter]

/-- C8 at scenario B, with the handler of the second file running first: two
objects are published, one for each file and none for the directory. -/
theorem treeWalk_publishes_files_witness :
    walkPathTree scenarioB = ["/path/a.txt".toList, "/path/b.txt".toList]
      ∧ (HandleRequest remoteOk clockDay1 scenarioB [1, 0]).published
          = ["new-bucket/2024-01-01/path/b.txt".toList, "new-bucket/2024-01-01/path/a.txt".toList]
      ∧ (HandleRequest remoteOk clockDay1 scenarioB [1, 0]).published.length = 2 :=
  ⟨by decide, by decide,
    (treeWalk_publishes_files remoteOk clockDay1 "2024-01-01".toList scenarioB [1, 0]
      (fun _ => rfl) (fun _ => rfl) (fun _ => rfl) (by decide)).2.2.2⟩

/-- C9: when opening the remote file fails, `fileHandler` attempts no upload
and returns normally, and the run goes on with the other handlers;
`fileHandler` ends the process exactly when the open succeeds and the upload
returns an error. -/
theorem fileHandler_error_policy (r : Remote) (importDate path : GoString) :
    (r.openErr path = true →
        fileHandler r importDate path = .skipped
          ∧ (fileHandler r importDate path).uploadAttempt = none
          ∧ (fileHandler r importDate path).aborts = false)
      ∧ ((fileHandler r importDate path).aborts = true ↔
          (r.openErr path = false
            ∧ r.uploadErr ("new-bucket/".toList ++ importDate ++ path) = true))
      ∧ (r.openErr path = true → ∀ (clock : Nat → GoString) (t : Nat) (rest : List GoString),
          runHandlers r clock t (path :: rest) = runHandlers r clock (t + 1) rest) := by
  refine ⟨fun h => ?_, ?_, fun h clock t rest => ?_⟩
  · simp [fileHandler, h, HandlerOutcome.uploadAttempt, HandlerOutcome.aborts]
  · cases ho : r.openErr path <;>
      cases hu : r.uploadErr ("new-bucket/".toList ++ importDate ++ path) <;>
      simp only [fileHandler, ho, hu, HandlerOutcome.aborts, Bool.false_eq_true, ↓reduceIte] <;>
      simp
  · simp [runHandlers, fileHandler, h]

end SftpUpload
